import Mathlib

/- Verification development for the molt dependency-resolution core:
   a shallow embedding of the lock-file data model (hashes, sources,
   packages, the dependency graph and its two-phase builder) and of the
   Synchronizer (marker evaluation, graph traversal, installation
   planning), together with theorems checking the specification's
   claims against the embedded code. -/

namespace Molt

/- ------------------------------------------------------------------
   Hash (src/rust/lockfiles/hashes.rs)

   Rust: `Hash { name, value }`; `parse` splits on ':' and takes the
   first two pieces; `Display` renders "name:value".
   ------------------------------------------------------------------ -/

structure Hash where
  name : String
  value : String
deriving DecidableEq, Repr

/-- Embedding of Rust's `str::split(':')`: the list of maximal runs of
characters between ':' separators.  `n` separators yield `n + 1`
pieces; the empty input yields one empty piece, as in Rust. -/
def splitColon : List Char → List (List Char)
  | [] => [[]]
  | c :: rest =>
    if c = ':' then [] :: splitColon rest
    else
      match splitColon rest with
      | [] => [[c]]
      | piece :: pieces => (c :: piece) :: pieces

/-- Embedding of `Hash::parse` (hashes.rs:24-28): take the first two
pieces produced by splitting on ':'; fail when there is no second
piece (i.e. no separator). -/
def Hash.parse (v : String) : Option Hash :=
  match splitColon v.data with
  | a :: b :: _ => some ⟨⟨a⟩, ⟨b⟩⟩
  | _ => none

/-- Embedding of `impl Display for Hash` (hashes.rs:30-34). -/
def Hash.display (h : Hash) : String :=
  h.name ++ ":" ++ h.value

/-- Hashes is a set of Hash values; iteration order is not observable
in any claim, so it is embedded as the underlying list. -/
def Hashes : Type := List Hash
deriving DecidableEq, Repr

def Hashes.iter (h : Hashes) : List Hash := h

/- ------------------------------------------------------------------
   Url: the surface of the `url` crate used by the code
   (`set_fragment`, `set_path`, `host_str`, `path`, `to_string`).
   ------------------------------------------------------------------ -/

structure Url where
  scheme : String
  host : Option String
  path : String
  fragment : Option String
deriving DecidableEq, Repr

def Url.host_str (u : Url) : Option String := u.host

def Url.set_fragment (u : Url) (f : Option String) : Url :=
  { u with fragment := f }

def Url.set_path (u : Url) (p : String) : Url :=
  { u with path := p }

def Url.render (u : Url) : String :=
  u.scheme ++ "://"
    ++ (match u.host with | some h => h | none => "")
    ++ u.path
    ++ (match u.fragment with | some f => "#" ++ f | none => "")

/- ------------------------------------------------------------------
   Source / Sources (src/rust/lockfiles/sources.rs)
   ------------------------------------------------------------------ -/

structure Source where
  name : String
  base_url : Url
  no_verify_ssl : Bool
deriving DecidableEq, Repr

/-- Sources is a name-keyed table (Rust `HashMap<String, Rc<Source>>`). -/
structure Sources where
  table : List (String × Source)
deriving DecidableEq, Repr

/-- Embedding of `Sources::get` (sources.rs:96-98). -/
def Sources.get (s : Sources) (key : String) : Option Source :=
  (s.table.find? (fun p => p.1 == key)).map (·.2)

/- ------------------------------------------------------------------
   Marker (src/src/lockfiles/deps.rs:214-236 and
   src/rust/lockfiles/deps.rs:19-41): an ordered list of raw
   environment-condition strings.
   ------------------------------------------------------------------ -/

structure Marker where
  strings : List String
deriving DecidableEq, Repr

/- ------------------------------------------------------------------
   Package, the src/rust generation (src/rust/lockfiles/pypackages.rs),
   exported there as PythonPackage: four specifier variants.
   ------------------------------------------------------------------ -/

inductive Specifier where
  | version (v : String) (source : Option Source)
  | url (u : Url) (no_verify_ssl : Bool)
  | path (p : String)
  | vcs (u : Url) (rev : String)
deriving DecidableEq, Repr

structure Package where
  name : String
  specifier : Specifier
  hashes : Option Hashes
deriving DecidableEq, Repr

/-- Embedding of `Package::to_requirement_txt`
(src/rust/lockfiles/pypackages.rs:31-79): render the requirement
line and report whether any hashes entry is present. -/
def Package.to_requirement_txt (p : Package) : Bool × String :=
  let first : List String :=
    match p.specifier with
    | .version v source =>
      [p.name ++ " == " ++ v]
        ++ (match source with
            | some source =>
              ["--index-url=" ++ source.base_url.render]
                ++ (if source.no_verify_ssl then
                      match source.base_url.host_str with
                      | some host => ["--trusted-host=" ++ host]
                      | none => []
                    else [])
            | none => [])
    | .url u no_verify_ssl =>
      [(u.set_fragment (some ("egg=" ++ p.name))).render]
        ++ (if no_verify_ssl then
              match u.host_str with
              | some host => ["--trusted-host=" ++ host]
              | none => []
            else [])
    | .path pth => [pth]
    | .vcs u rev =>
      [(((u.set_path (u.path ++ "@" ++ rev))).set_fragment
          (some ("egg=" ++ p.name))).render]
  let args := first
    ++ (match p.hashes with
        | some hashes => (hashes.iter.map (fun h => ["--hash", h.display])).flatten
        | none => [])
  (p.hashes.isSome, String.intercalate " " args)

/- ------------------------------------------------------------------
   PythonPackage, the src/src generation (src/src/lockfiles/deps.rs):
   two specifier variants, source attached at the package level.
   This is the payload type the Synchronizer (src/src/sync.rs)
   traverses and installs.
   ------------------------------------------------------------------ -/

inductive PythonPackageSpecifier where
  | version (v : String)
  | url (u : Url)
deriving DecidableEq, Repr

structure PythonPackage where
  name : String
  specifier : PythonPackageSpecifier
  source : Option Source
  hashes : Option Hashes
deriving DecidableEq, Repr

/-- Embedding of `PythonPackage::to_requirement_txt`
(src/src/lockfiles/deps.rs:49-80). -/
def PythonPackage.to_requirement_txt (p : PythonPackage) : Bool × String :=
  let first : String :=
    match p.specifier with
    | .version v => p.name ++ " == " ++ v
    | .url u => (u.set_fragment (some ("egg=" ++ p.name))).render
  let args := [first]
    ++ (match p.source with
        | some source =>
          ["--index-url=" ++ source.base_url.render]
            ++ (if source.no_verify_ssl then
                  match source.base_url.host_str with
                  | some host => ["--trusted-host=" ++ host]
                  | none => []
                else [])
        | none => [])
    ++ (match p.hashes with
        | some hashes => (hashes.iter.map (fun h => ["--hash", h.display])).flatten
        | none => [])
  (p.hashes.isSome, String.intercalate " " args)

/- ------------------------------------------------------------------
   Dependency graph (src/src/lockfiles/deps.rs:268-389).

   Rust stores edges as `Vec<(Rc<RefCell<Dependency>>, Option<Marker>)>`
   inside a key-unique node table `HashMap<String, Rc<RefCell<..>>>`.
   Following the shared-node arena reading of the spec (section 9), the
   embedding addresses nodes by their unique key: the table is an
   association list and each edge stores the target's key.
   ------------------------------------------------------------------ -/

structure Dependency where
  key : String
  python : Option PythonPackage
  dependencies : List (String × Option Marker)
deriving DecidableEq, Repr

structure Dependencies where
  table : List (String × Dependency)
deriving DecidableEq, Repr

/-- Node lookup in the table (Rust `HashMap::get` + `borrow`). -/
def Dependencies.lookup (g : Dependencies) (key : String) : Option Dependency :=
  (g.table.find? (fun p => p.1 == key)).map (·.2)

/-- Embedding of `Dependencies::default` (deps.rs:348-350). -/
def Dependencies.default (g : Dependencies) : Option Dependency :=
  g.lookup ""

/-- Embedding of `Dependencies::extra` (deps.rs:352-354). -/
def Dependencies.extra (g : Dependencies) (extra : String) : Option Dependency :=
  g.lookup ("[" ++ extra ++ "]")

/-- Embedding of `Dependencies::add_dependency` (deps.rs:361-372):
insert a bare node with no edges, replacing any node with the same
key (`HashMap::insert` semantics; keys are unique in practice). -/
def Dependencies.add_dependency (g : Dependencies) (key : String)
    (python : Option PythonPackage) : Dependencies :=
  let dep : Dependency := ⟨key, python, []⟩
  if g.table.any (fun p => p.1 == key) then
    ⟨g.table.map (fun p => if p.1 == key then (p.1, dep) else p)⟩
  else
    ⟨g.table ++ [(key, dep)]⟩

/-- Embedding of `Dependencies::add_dependence` (deps.rs:374-388):
resolve the depended key against the node table (error carrying that
key when missing), resolve the dependent key likewise, then append
the edge `(depended, marker)` to the dependent node's edge list. -/
def Dependencies.add_dependence (g : Dependencies) (dependent : String)
    (depended : String) (marker : Option Marker) :
    Except String Dependencies :=
  match g.lookup depended with
  | none => .error depended
  | some _ =>
    match g.lookup dependent with
    | none => .error dependent
    | some node =>
      let node' := { node with dependencies := node.dependencies ++ [(depended, marker)] }
      .ok ⟨g.table.map (fun p => if p.1 == dependent then (p.1, node') else p)⟩

/-- A Lock owns the sources table and the linked dependency graph
(src/src/lockfiles/locks.rs:36-39). -/
structure Lock where
  sources : Sources
  dependencies : Dependencies

/- ------------------------------------------------------------------
   Lock-file parser / two-phase graph builder
   (src/src/lockfiles/locks.rs:64-133, src/src/lockfiles/deps.rs).

   Phase 1 materialises one bare node per dependency key, resolving
   its inline python body against the sources table and that key's
   hashes entry, and records the not-yet-linked edge specification.
   Phase 2 connects the edges, resolving each child key against the
   completed node table.  Parse errors are carried as strings (the
   message handed to serde's `de::Error`).
   ------------------------------------------------------------------ -/

/-- Embedding of `PythonPackageEntry` (src/src/lockfiles/deps.rs:83-88):
an inline python body whose source is still a symbolic name. -/
structure PythonPackageEntry where
  name : String
  source : Option String
  specifier : PythonPackageSpecifier
deriving DecidableEq, Repr

/-- Embedding of `PythonPackageEntry::make_python_package`
(src/src/lockfiles/deps.rs:91-114): resolve the symbolic source name
against the sources table, failing with a message naming the
unresolvable source. -/
def PythonPackageEntry.make_python_package (e : PythonPackageEntry)
    (sources : Sources) (hashes : Option Hashes) :
    Except String PythonPackage :=
  match e.source with
  | none => .ok ⟨e.name, e.specifier, none, hashes⟩
  | some k =>
    match sources.get k with
    | some s => .ok ⟨e.name, e.specifier, some s, hashes⟩
    | none => .error ("unresolvable source name \"" ++ k ++ "\"")

/-- Embedding of `DependencyEntry` (src/src/lockfiles/deps.rs:304-310):
a parsed dependency body, edges still keyed symbolically. -/
structure DependencyEntry where
  python : Option PythonPackageEntry
  dependencies : List (String × Option Marker)
deriving DecidableEq, Repr

/-- Embedding of `DependencyEntry::make_python`
(src/src/lockfiles/deps.rs:312-324). -/
def DependencyEntry.make_python (e : DependencyEntry) (sources : Sources)
    (hashes : Option Hashes) : Except String (Option PythonPackage) :=
  match e.python with
  | none => .ok none
  | some p =>
    match p.make_python_package sources hashes with
    | .ok pp => .ok (some pp)
    | .error err => .error err

/-- Modelled from the spec: the body of `into_unlinked_dependency` is
not in the tree; per spec section 4.1 phase 1 and its call site
(src/src/lockfiles/locks.rs:103-121) it resolves the entry's inline
python body (via the in-tree `DependencyEntry::make_python`) against
the sources table and the key's hashes entry, constructs a bare
`Dependency {key, python, edges: []}`, and hands back the entry's
recorded edge specification (`into_dependencies`). -/
def phase_one (sources : Sources) (hashes : List (String × Hashes)) :
    List (String × DependencyEntry) →
    Except String (Dependencies × List (String × List (String × Option Marker)))
  | [] => .ok (⟨[]⟩, [])
  | (k, v) :: rest =>
    let hash := ((hashes.find? (fun p => p.1 == k)).map (·.2))
    match v.make_python sources hash with
    | .error e => .error e
    | .ok python =>
      match phase_one sources hashes rest with
      | .error e => .error e
      | .ok (deps, links) =>
        .ok (⟨(k, ⟨k, python, []⟩) :: deps.table⟩, (k, v.dependencies) :: links)

/-- Modelled from the spec: the body of `populate_dependencies` is not
in the tree; per spec section 4.1 phase 2 and its call site
(src/src/lockfiles/locks.rs:123-129) it resolves every recorded
(child, marker) pair of one node against the completed node table,
which is exactly the in-tree `Dependencies::add_dependence`
(src/src/lockfiles/deps.rs:374-388) applied per edge. -/
def link_edges (dependent : String) :
    List (String × Option Marker) → Dependencies → Except String Dependencies
  | [], g => .ok g
  | (child, marker) :: rest, g =>
    match g.add_dependence dependent child marker with
    | .error e => .error e
    | .ok g' => link_edges dependent rest g'

/-- Phase 2 of `Lock`'s `visit_map` (src/src/lockfiles/locks.rs:123-129):
connect the edges of every node.  The per-edge resolution is the
in-tree `Dependencies::add_dependence` (src/src/lockfiles/deps.rs:
374-388), which fails with the missing key's name. -/
def phase_two :
    List (String × List (String × Option Marker)) → Dependencies →
    Except String Dependencies
  | [], g => .ok g
  | (k, links) :: rest, g =>
    match link_edges k links g with
    | .error e => .error e
    | .ok g' => phase_two rest g'

/-- Embedding of `Lock`'s deserialisation body
(src/src/lockfiles/locks.rs:100-132): phase 1 then phase 2; any
failure aborts the whole parse and no Lock is returned. -/
def parse_lock (sources : Sources) (hashes : List (String × Hashes))
    (dents : List (String × DependencyEntry)) : Except String Lock :=
  match phase_one sources hashes dents with
  | .error e => .error e
  | .ok (deps, links) =>
    match phase_two links deps with
    | .error e => .error e
    | .ok g => .ok ⟨sources, g⟩

/- ------------------------------------------------------------------
   Synchronizer (src/src/sync.rs).

   The external marker evaluator (an interpreter subprocess) is an
   oracle from the submitted marker expression to the (stdout, stderr)
   pair it produces; the package installer is an oracle from the
   package key and argument list to an exit status; temporary file
   naming is an oracle from the package's position in the plan to the
   generated path.
   ------------------------------------------------------------------ -/

inductive SyncError where
  | defaultSectionNotFound
  | extraSectionNotFound (name : String)
  | installCommandError (errors : List (String × Option Int))
  | invalidMarkerError (out err : String)
  | outOfFuel
deriving DecidableEq, Repr

/-- Traversal state: the shared resolved map (Rust
`HashMap<String, PythonPackage>` keyed by dependency key, modelled in
insertion order) plus the trace of marker expressions actually
submitted to the external evaluator. -/
structure SyncState where
  resolved : List (String × PythonPackage)
  calls : List String
deriving DecidableEq, Repr

abbrev MarkerEval := String → String × String

/-- The joined expression `(cond_1) or ... or (cond_n)` built by
`Synchronizer::evaluate_marker` (src/src/sync.rs:94-97). -/
def Marker.joined (m : Marker) : String :=
  String.intercalate " or " (m.strings.map (fun s => "(" ++ s ++ ")"))

/-- Embedding of `Synchronizer::evaluate_marker`
(src/src/sync.rs:93-136): an empty joined expression short-circuits to
false without consulting the evaluator; otherwise the evaluator runs
once (recorded in `calls`) and its stdout must be exactly "True" or
"False", anything else failing with `InvalidMarkerError`. -/
def evaluate_marker (ev : MarkerEval) (m : Marker) (st : SyncState) :
    Except SyncError (Bool × SyncState) :=
  let marker := m.joined
  if marker.isEmpty then .ok (false, st)
  else
    let out := (ev marker).1
    let st' := { st with calls := st.calls ++ [marker] }
    if out = "True" then .ok (true, st')
    else if out = "False" then .ok (false, st')
    else .error (.invalidMarkerError out (ev marker).2)

/-- The edge loop of `Synchronizer::collect_required`
(src/src/sync.rs:150-157), parameterised by the recursive visit so the
recursion can be tied off by fuel in `collect_required`: a guarded
edge is evaluated and skipped when false; otherwise the child is
visited. -/
def fold_dependences (ev : MarkerEval)
    (visit : String → SyncState → Except SyncError SyncState) :
    List (String × Option Marker) → SyncState → Except SyncError SyncState
  | [], st => .ok st
  | (child, marker) :: rest, st =>
    match marker with
    | some m =>
      match evaluate_marker ev m st with
      | .error e => .error e
      | .ok (b, st') =>
        if b then
          match visit child st' with
          | .error e => .error e
          | .ok st'' => fold_dependences ev visit rest st''
        else fold_dependences ev visit rest st'
    | none =>
      match visit child st with
      | .error e => .error e
      | .ok st' => fold_dependences ev visit rest st'

/-- Embedding of `Synchronizer::collect_required`
(src/src/sync.rs:138-159).  The Rust recursion is unbounded; here it
is indexed by fuel, exhaustion surfacing as the modelling-only
`outOfFuel` error, so that boundedness of the Rust recursion is
exactly the statement that some fuel avoids `outOfFuel`.  The node is
dereferenced first (edges hold `Rc` handles, so lookup cannot fail on
a linked graph; an absent key conservatively resolves to a no-op). -/
def collect_required (g : Dependencies) (ev : MarkerEval) :
    Nat → String → SyncState → Except SyncError SyncState
  | 0, _, _ => .error .outOfFuel
  | fuel + 1, key, st =>
    match g.lookup key with
    | none => .ok st
    | some node =>
      if st.resolved.any (fun p => p.1 == node.key) then .ok st
      else
        let st1 :=
          match node.python with
          | some python => { st with resolved := st.resolved ++ [(node.key, python)] }
          | none => st
        fold_dependences ev (collect_required g ev fuel) node.dependencies st1

/-- The extras loop of `Synchronizer::required_packages`
(src/src/sync.rs:182-188): each requested extra is resolved to its
`"[name]"` node and traversed, the first missing one aborting with
`ExtraSectionNotFound`. -/
def process_extras (g : Dependencies) (ev : MarkerEval) (fuel : Nat) :
    List String → SyncState → Except SyncError SyncState
  | [], st => .ok st
  | extra :: rest, st =>
    match g.extra extra with
    | some _ =>
      match collect_required g ev fuel ("[" ++ extra ++ "]") st with
      | .error e => .error e
      | .ok st' => process_extras g ev fuel rest st'
    | none => .error (.extraSectionNotFound extra)

/-- Embedding of `Synchronizer::required_packages`
(src/src/sync.rs:165-190): one shared resolved map, started empty,
threaded through the default section (when requested) and then every
requested extra. -/
def required_packages (g : Dependencies) (ev : MarkerEval) (fuel : Nat)
    (default : Bool) (extras : List String) : Except SyncError SyncState :=
  match (if default then
           match g.default with
           | some _ => collect_required g ev fuel "" ⟨[], []⟩
           | none => .error .defaultSectionNotFound
         else .ok ⟨[], []⟩) with
  | .error e => .error e
  | .ok st1 => process_extras g ev fuel extras st1

/-- Exit status of one installer subprocess (Rust
`std::process::ExitStatus`: `success()` and `code()`). -/
structure ExitStatus where
  success : Bool
  code : Option Int
deriving DecidableEq, Repr

abbrev Installer := String → List String → ExitStatus

abbrev TempNamer := Nat → String

/-- One recorded installer invocation: the package key it installs and
the arguments handed to the interpreter subprocess. -/
structure Invocation where
  key : String
  args : List String
deriving DecidableEq, Repr

/-- The pip argument list built per package by
`Synchronizer::install_into` (src/src/sync.rs:228-239). -/
def pip_install_args (requirement : String) (envRoot : String)
    (hashed : Bool) : List String :=
  ["-m", "pip", "install",
   "--requirement", requirement,
   "--prefix", envRoot,
   "--no-deps"]
    ++ (if hashed then ["--require-hashes"] else [])

/-- The body of the install loop of `Synchronizer::install_into`
(src/src/sync.rs:226-244): build the pip command for one rendered
requirement `(key, hashed, requirement path)`, run it, record the
invocation, and push `(key, exit code)` onto the error context when
the exit status is unsuccessful. -/
def install_step (run : Installer) (envRoot : String)
    (acc : List Invocation × List (String × Option Int))
    (r : String × Bool × String) :
    List Invocation × List (String × Option Int) :=
  let args := pip_install_args r.2.2 envRoot r.2.1
  let status := run r.1 args
  (acc.1 ++ [⟨r.1, args⟩],
   if status.success then acc.2 else acc.2 ++ [(r.1, status.code)])

/-- Embedding of `Synchronizer::install_into`
(src/src/sync.rs:192-251): render every package's requirement line
into its own temporary file, then run one installer invocation per
package sequentially, accumulating `(key, exit code)` for each
non-zero exit, surfacing `InstallCommandError` only after all planned
installs were attempted.  Returns the outcome together with the full
invocation list. -/
def install_into (run : Installer) (tmp : TempNamer) (envRoot : String)
    (packages : List (String × PythonPackage)) :
    Except SyncError Unit × List Invocation :=
  let reqs := packages.enum.map
    (fun e => (e.2.1, (e.2.2.to_requirement_txt).1, tmp e.1))
  let result := reqs.foldl (install_step run envRoot) ([], [])
  (if result.2.isEmpty then .ok () else .error (.installCommandError result.2),
   result.1)

/-- Embedding of `Synchronizer::sync` (src/src/sync.rs:253-270):
compute the required packages, then install them; a failure in
section resolution or traversal yields no installer invocation. -/
def Synchronizer.sync (g : Dependencies) (ev : MarkerEval) (run : Installer)
    (tmp : TempNamer) (fuel : Nat) (envRoot : String) (default : Bool)
    (extras : List String) : Except SyncError Unit × List Invocation :=
  match required_packages g ev fuel default extras with
  | .error e => (.error e, [])
  | .ok st => install_into run tmp envRoot st.resolved

/- ------------------------------------------------------------------
   Derived observations used by the theorems.
   ------------------------------------------------------------------ -/

/-- The `(key, exit code)` pairs of the unsuccessful invocations in a
plan, as recorded by the install loop's error context. -/
def failures (run : Installer) (invs : List Invocation) :
    List (String × Option Int) :=
  invs.filterMap (fun inv =>
    let status := run inv.key inv.args
    if status.success then none else some (inv.key, status.code))

/-- Every edge's target key resolves in the node table. -/
def edge_closed (g : Dependencies) : Bool :=
  g.table.all (fun kv =>
    kv.2.dependencies.all (fun e => (g.lookup e.1).isSome))

/-- Whether some dependency body in the parsed document lists `c` as a
child key. -/
def references (dents : List (String × DependencyEntry)) (c : String) :
    Bool :=
  dents.any (fun kv => kv.2.dependencies.any (fun e => e.1 == c))

/-- Whether the parsed document has a dependency body keyed `c`. -/
def has_key (dents : List (String × DependencyEntry)) (c : String) : Bool :=
  dents.any (fun kv => kv.1 == c)

/- ------------------------------------------------------------------
   Concrete fixtures used by witnesses and counterexamples.
   ------------------------------------------------------------------ -/

/-- An evaluator whose interpreter always prints `True`. -/
def ev_true : MarkerEval := fun _ => ("True", "")

/-- An installer whose every invocation exits successfully. -/
def run_ok : Installer := fun _ _ => ⟨true, some 0⟩

/-- A temp-file namer for witnesses. -/
def tmp_names : TempNamer := fun i => "/tmp/req" ++ toString i

/-- A lock graph whose default section node depends on itself and
carries no package: the parser accepts it (the child key `""`
resolves), yet `collect_required` never inserts its key into the
resolved set, so the Rust recursion on it is unbounded. -/
def cyclic_sections : Dependencies :=
  ⟨[("", ⟨"", none, [("", none)]⟩)]⟩

/-- A diamond: the default section pulls `a` and `b`, both of which
depend on the shared package `c`. -/
def diamond : Dependencies :=
  ⟨[("", ⟨"", none, [("a", none), ("b", none)]⟩),
    ("a", ⟨"a", some ⟨"a", .version "1", none, none⟩, [("c", none)]⟩),
    ("b", ⟨"b", some ⟨"b", .version "1", none, none⟩, [("c", none)]⟩),
    ("c", ⟨"c", some ⟨"c", .version "1", none, none⟩, []⟩)]⟩

/-- The resolved state the diamond traversal produces. -/
def diamond_state : SyncState :=
  ⟨[("a", ⟨"a", .version "1", none, none⟩),
    ("c", ⟨"c", .version "1", none, none⟩),
    ("b", ⟨"b", .version "1", none, none⟩)], []⟩

/-- A well-formed two-node document for the parser witnesses. -/
def dents_ok : List (String × DependencyEntry) :=
  [("", ⟨none, [("bar", none)]⟩),
   ("bar", ⟨some ⟨"bar", none, .version "1.0"⟩, []⟩)]

/-- A document whose default section references a key with no node. -/
def dents_dangling : List (String × DependencyEntry) :=
  [("", ⟨none, [("nope", none)]⟩)]

/- ==================================================================
   Theorems.
   ================================================================== -/

/- Lemmas about `splitColon`. -/

theorem splitColon_ne_nil (l : List Char) : splitColon l ≠ [] := by
  cases l with
  | nil => simp [splitColon]
  | cons c rest =>
    simp only [splitColon]
    split
    · simp
    · cases h : splitColon rest <;> simp

theorem splitColon_no_colon (l : List Char) (h : ':' ∉ l) :
    splitColon l = [l] := by
  induction l with
  | nil => rfl
  | cons c rest ih =>
    have hc : c ≠ ':' := fun hc => h (hc ▸ List.mem_cons_self c rest)
    have hr : ':' ∉ rest := fun hr => h (List.mem_cons_of_mem c hr)
    simp only [splitColon, if_neg hc, ih hr]

theorem splitColon_append (l₁ l₂ : List Char) (h : ':' ∉ l₁) :
    splitColon (l₁ ++ ':' :: l₂) = l₁ :: splitColon l₂ := by
  induction l₁ with
  | nil => simp [splitColon]
  | cons c rest ih =>
    have hc : c ≠ ':' := fun hc => h (hc ▸ List.mem_cons_self c rest)
    have hr : ':' ∉ rest := fun hr => h (List.mem_cons_of_mem c hr)
    simp only [List.cons_append, splitColon, if_neg hc, List.append_eq, ih hr]

theorem string_mk_data (s : String) : String.mk s.data = s := by
  cases s
  rfl

theorem hash_display_data (a b : String) :
    (Hash.display ⟨a, b⟩).data = a.data ++ ':' :: b.data := by
  show (a ++ ":" ++ b).data = _
  simp [String.data_append, List.append_assoc]

theorem hash_parse_of_split (a b : String) (c : List Char)
    (ha : ':' ∉ a.data) (hb : ':' ∉ b.data) :
    Hash.parse ⟨a.data ++ ':' :: (b.data ++ ':' :: c)⟩ = some ⟨a, b⟩ := by
  unfold Hash.parse
  rw [show (String.mk (a.data ++ ':' :: (b.data ++ ':' :: c))).data
        = a.data ++ ':' :: (b.data ++ ':' :: c) from rfl,
      splitColon_append _ _ ha, splitColon_append _ _ hb]

/-- C9: parsing "sha256:deadbeef" yields the Hash with algorithm
"sha256" and digest "deadbeef"; rendering that Hash reproduces the
original string; and every input string without a ':' separator fails
to parse. -/
theorem hash_roundtrip :
    Hash.parse "sha256:deadbeef" = some ⟨"sha256", "deadbeef"⟩
    ∧ Hash.display ⟨"sha256", "deadbeef"⟩ = "sha256:deadbeef"
    ∧ ∀ s : String, ':' ∉ s.data → Hash.parse s = none := by
  refine ⟨by decide, by decide, fun s h => ?_⟩
  unfold Hash.parse
  rw [splitColon_no_colon s.data h]

/-- Witness for `hash_roundtrip` at the separator-free input
"deadbeef". -/
theorem hash_roundtrip_witness : Hash.parse "deadbeef" = none :=
  hash_roundtrip.2.2 "deadbeef" (by decide)

/-- C10: an input with two or more ':' separators parses successfully,
the algorithm being the text before the first colon and the digest the
text between the first and the second, the remainder silently
discarded, so rendering the parsed Hash cannot reproduce the original;
with exactly one colon the parse/render round-trip holds. -/
theorem hash_parse_multi_colon :
    (∀ a b : String, ∀ c : List Char, ':' ∉ a.data → ':' ∉ b.data →
       Hash.parse ⟨a.data ++ ':' :: (b.data ++ ':' :: c)⟩ = some ⟨a, b⟩
       ∧ Hash.display ⟨a, b⟩ ≠ ⟨a.data ++ ':' :: (b.data ++ ':' :: c)⟩)
    ∧ (∀ a b : String, ':' ∉ a.data → ':' ∉ b.data →
       Hash.parse (a ++ ":" ++ b) = some ⟨a, b⟩
       ∧ Hash.display ⟨a, b⟩ = a ++ ":" ++ b) := by
  constructor
  · intro a b c ha hb
    refine ⟨hash_parse_of_split a b c ha hb, fun h => ?_⟩
    have hd := congrArg String.data h
    rw [hash_display_data] at hd
    have hlen := congrArg List.length hd
    simp only [List.length_append, List.length_cons] at hlen
    omega
  · intro a b ha hb
    constructor
    · have hdata : (a ++ ":" ++ b).data = a.data ++ ':' :: b.data := by
        simp [String.data_append, List.append_assoc]
      unfold Hash.parse
      rw [hdata, splitColon_append _ _ ha, splitColon_no_colon _ hb]
    · have : Hash.display ⟨a, b⟩ = a ++ ":" ++ b := rfl
      exact this

/-- Witness for `hash_parse_multi_colon` at "a:b:c". -/
theorem hash_parse_multi_colon_witness :
    Hash.parse "a:b:c" = some ⟨"a", "b"⟩
    ∧ Hash.display ⟨"a", "b"⟩ ≠ "a:b:c" := by
  have h := hash_parse_multi_colon.1 "a" "b" ['c'] (by decide) (by decide)
  exact ⟨h.1, h.2⟩

/-- C1: during traversal, an edge guarded by an attached Marker with
zero condition strings short-circuits to false without the evaluator
ever being consulted (the state, including the call trace, is exactly
as if the edge were absent), while an edge carrying no Marker at all
is always followed into its child with no evaluator interaction for
that edge. -/
theorem empty_marker_excludes_no_marker_includes :
    (∀ (ev : MarkerEval) (st : SyncState),
       evaluate_marker ev ⟨[]⟩ st = .ok (false, st))
    ∧ (∀ (g : Dependencies) (ev : MarkerEval) (fuel : Nat) (child : String)
         (rest : List (String × Option Marker)) (st : SyncState),
       fold_dependences ev (collect_required g ev fuel)
           ((child, some ⟨[]⟩) :: rest) st
         = fold_dependences ev (collect_required g ev fuel) rest st)
    ∧ (∀ (g : Dependencies) (ev : MarkerEval) (fuel : Nat) (child : String)
         (rest : List (String × Option Marker)) (st : SyncState),
       fold_dependences ev (collect_required g ev fuel)
           ((child, none) :: rest) st
         = match collect_required g ev fuel child st with
           | .error e => .error e
           | .ok st' => fold_dependences ev (collect_required g ev fuel) rest st') := by
  refine ⟨fun ev st => rfl, fun g ev fuel child rest st => rfl,
          fun g ev fuel child rest st => rfl⟩

/- Lemmas about the install loop. -/

theorem install_loop (run : Installer) (envRoot : String) :
    ∀ (reqs : List (String × Bool × String))
      (acc : List Invocation × List (String × Option Int)),
    reqs.foldl (install_step run envRoot) acc
      = (acc.1 ++ reqs.map
           (fun r => ⟨r.1, pip_install_args r.2.2 envRoot r.2.1⟩),
         acc.2 ++ failures run (reqs.map
           (fun r => ⟨r.1, pip_install_args r.2.2 envRoot r.2.1⟩))) := by
  intro reqs
  induction reqs with
  | nil => intro acc; simp [failures]
  | cons r rest ih =>
    intro acc
    rw [List.foldl_cons, ih]
    unfold install_step failures
    cases h : (run r.1 (pip_install_args r.2.2 envRoot r.2.1)).success <;>
      simp [h, List.filterMap_cons, List.append_assoc]

theorem install_into_unfolded (run : Installer) (tmp : TempNamer)
    (envRoot : String) (packages : List (String × PythonPackage)) :
    install_into run tmp envRoot packages
      = (if (failures run (packages.enum.map (fun e =>
              ⟨e.2.1, pip_install_args (tmp e.1) envRoot
                 (e.2.2.to_requirement_txt).1⟩))).isEmpty
           then .ok ()
           else .error (.installCommandError (failures run (packages.enum.map
             (fun e => ⟨e.2.1, pip_install_args (tmp e.1) envRoot
                (e.2.2.to_requirement_txt).1⟩)))),
         packages.enum.map (fun e =>
           ⟨e.2.1, pip_install_args (tmp e.1) envRoot
              (e.2.2.to_requirement_txt).1⟩)) := by
  unfold install_into
  simp only [install_loop]
  simp [List.map_map, Function.comp_def]

/-- C6: the installation plan is best-effort: one invocation is issued
per planned package (in plan order, regardless of earlier failures),
a non-zero exit records `(key, exit code)` into the accumulated error
context, and the operation returns `InstallCommandError` with exactly
that list when it is non-empty and succeeds otherwise. -/
theorem install_into_best_effort (run : Installer) (tmp : TempNamer)
    (envRoot : String) (packages : List (String × PythonPackage)) :
    ((install_into run tmp envRoot packages).2.map Invocation.key
       = packages.map Prod.fst)
    ∧ ((install_into run tmp envRoot packages).1 = .ok ()
       ↔ failures run (install_into run tmp envRoot packages).2 = [])
    ∧ (∀ l, (install_into run tmp envRoot packages).1
          = .error (.installCommandError l)
       ↔ (l = failures run (install_into run tmp envRoot packages).2
           ∧ l ≠ [])) := by
  rw [install_into_unfolded]
  refine ⟨?_, ?_, ?_⟩
  · have henum : ∀ {α β : Type} (n : Nat) (l : List (α × β)),
        (List.enumFrom n l).map (fun e => e.2.1) = l.map Prod.fst := by
      intro α β n l
      induction l generalizing n with
      | nil => rfl
      | cons x xs ih => simp [List.enumFrom, ih]
    simp only [List.map_map, Function.comp]
    exact henum 0 packages
  · cases h : (failures run (packages.enum.map (fun e =>
        ⟨e.2.1, pip_install_args (tmp e.1) envRoot
           (e.2.2.to_requirement_txt).1⟩))).isEmpty <;>
      simp_all [List.isEmpty_iff]
  · intro l
    cases h : (failures run (packages.enum.map (fun e =>
        ⟨e.2.1, pip_install_args (tmp e.1) envRoot
           (e.2.2.to_requirement_txt).1⟩))).isEmpty
    · simp_all [List.isEmpty_iff]
      constructor
      · intro he
        exact ⟨he.symm, fun hl => h (he.trans hl)⟩
      · intro he
        exact he.1.symm
    · simp_all [List.isEmpty_iff]

/-- C7: the requirement-line render of either package generation
reports presence of a hashes set, the installer invocation for a
package receives exactly the pip argument list built from that
boolean, and `--require-hashes` occurs in that argument list exactly
when the boolean is true. -/
theorem require_hashes_gating :
    (∀ p : Package, (p.to_requirement_txt).1 = p.hashes.isSome)
    ∧ (∀ p : PythonPackage, (p.to_requirement_txt).1 = p.hashes.isSome)
    ∧ (∀ (run : Installer) (tmp : TempNamer) (envRoot : String)
         (packages : List (String × PythonPackage)),
        (install_into run tmp envRoot packages).2
          = packages.enum.map (fun e =>
              ⟨e.2.1, pip_install_args (tmp e.1) envRoot
                 (e.2.2.to_requirement_txt).1⟩))
    ∧ (∀ requirement envRoot : String,
        "--require-hashes" ∈ pip_install_args requirement envRoot true
        ∧ (requirement ≠ "--require-hashes" → envRoot ≠ "--require-hashes" →
           "--require-hashes" ∉ pip_install_args requirement envRoot false)) := by
  refine ⟨fun p => rfl, fun p => rfl, ?_, ?_⟩
  · intro run tmp envRoot packages
    rw [install_into_unfolded]
  · intro requirement envRoot
    constructor
    · simp [pip_install_args]
    · intro h1 h2
      simp only [pip_install_args, if_neg (by simp : ¬False)]
      simp [h1, h2, Ne.symm h1, Ne.symm h2]

/-- Witness for `require_hashes_gating` at a concrete requirement file
and environment root. -/
theorem require_hashes_gating_witness :
    "--require-hashes" ∈ pip_install_args "/tmp/req0" "/env" true
    ∧ "--require-hashes" ∉ pip_install_args "/tmp/req0" "/env" false :=
  ⟨(require_hashes_gating.2.2.2 "/tmp/req0" "/env").1,
   (require_hashes_gating.2.2.2 "/tmp/req0" "/env").2 (by decide) (by decide)⟩

/- Lemmas about extras processing. -/

theorem process_extras_append (g : Dependencies) (ev : MarkerEval)
    (fuel : Nat) (xs ys : List String) (st : SyncState) :
    process_extras g ev fuel (xs ++ ys) st
      = match process_extras g ev fuel xs st with
        | .error e => .error e
        | .ok st' => process_extras g ev fuel ys st' := by
  induction xs generalizing st with
  | nil => simp [process_extras]
  | cons x xs ih =>
    simp only [List.cons_append, process_extras]
    cases hx : g.extra x
    · rfl
    · cases hc : collect_required g ev fuel ("[" ++ x ++ "]") st
      · rfl
      · exact ih _

/-- C5: requesting the default section against a lock with no `""`
node fails with `DefaultSectionNotFound`; requesting an extra whose
`"[name]"` node is absent (after the preceding roots processed
successfully) fails with `ExtraSectionNotFound(name)`; in either case
no installer invocation is issued. -/
theorem section_errors_abort :
    (∀ (g : Dependencies) (ev : MarkerEval) (run : Installer)
       (tmp : TempNamer) (fuel : Nat) (envRoot : String)
       (extras : List String),
       Dependencies.default g = none →
       Synchronizer.sync g ev run tmp fuel envRoot true extras
         = (.error .defaultSectionNotFound, []))
    ∧ (∀ (g : Dependencies) (ev : MarkerEval) (run : Installer)
         (tmp : TempNamer) (fuel : Nat) (envRoot : String) (dflt : Bool)
         (pre : List String) (e : String) (post : List String)
         (st : SyncState),
       required_packages g ev fuel dflt pre = .ok st →
       Dependencies.extra g e = none →
       Synchronizer.sync g ev run tmp fuel envRoot dflt (pre ++ e :: post)
         = (.error (.extraSectionNotFound e), [])) := by
  constructor
  · intro g ev run tmp fuel envRoot extras h
    simp [Synchronizer.sync, required_packages, h]
  · intro g ev run tmp fuel envRoot dflt pre e post st h1 h2
    unfold Synchronizer.sync
    unfold required_packages at h1 ⊢
    cases hD : (if dflt then
                  match g.default with
                  | some _ => collect_required g ev fuel "" ⟨[], []⟩
                  | none => .error .defaultSectionNotFound
                else .ok ⟨[], []⟩) with
    | error err => rw [hD] at h1; simp at h1
    | ok st1 =>
      rw [hD] at h1
      have h1' : process_extras g ev fuel pre st1 = Except.ok st := h1
      show (match process_extras g ev fuel (pre ++ e :: post) st1 with
            | Except.error er => (Except.error er, ([] : List Invocation))
            | Except.ok s => install_into run tmp envRoot s.resolved)
          = (Except.error (SyncError.extraSectionNotFound e), [])
      rw [process_extras_append, h1']
      simp [process_extras, h2]

/-- Witness for `section_errors_abort`: an empty lock rejects the
default request; the diamond lock rejects an unknown extra. -/
theorem section_errors_abort_witness :
    Synchronizer.sync ⟨[]⟩ ev_true run_ok tmp_names 5 "/env" true []
      = (.error .defaultSectionNotFound, [])
    ∧ Synchronizer.sync diamond ev_true run_ok tmp_names 5 "/env" false
        (([] : List String) ++ "x" :: [])
      = (.error (.extraSectionNotFound "x"), []) :=
  ⟨section_errors_abort.1 ⟨[]⟩ ev_true run_ok tmp_names 5 "/env" [] rfl,
   section_errors_abort.2 diamond ev_true run_ok tmp_names 5 "/env" false
     [] "x" [] ⟨[], []⟩ rfl (by decide)⟩

/- Invariant preservation through the traversal. -/

theorem evaluate_marker_resolved (ev : MarkerEval) (m : Marker)
    (st : SyncState) (b : Bool) (st' : SyncState)
    (h : evaluate_marker ev m st = .ok (b, st')) :
    st'.resolved = st.resolved := by
  simp only [evaluate_marker] at h
  split at h
  · simp only [Except.ok.injEq, Prod.mk.injEq] at h
    rw [← h.2]
  · split at h
    · simp only [Except.ok.injEq, Prod.mk.injEq] at h
      rw [← h.2]
    · split at h
      · simp only [Except.ok.injEq, Prod.mk.injEq] at h
        rw [← h.2]
      · exact absurd h (by simp)

theorem fold_dependences_inv (ev : MarkerEval)
    (visit : String → SyncState → Except SyncError SyncState)
    (P : List (String × PythonPackage) → Prop)
    (hvisit : ∀ k s s', visit k s = .ok s' → P s.resolved → P s'.resolved) :
    ∀ (edges : List (String × Option Marker)) (st st' : SyncState),
    fold_dependences ev visit edges st = .ok st' →
    P st.resolved → P st'.resolved := by
  intro edges
  induction edges with
  | nil =>
    intro st st' h hP
    simp only [fold_dependences, Except.ok.injEq] at h
    rw [← h]
    exact hP
  | cons edge rest ih =>
    intro st st' h hP
    obtain ⟨child, marker⟩ := edge
    cases marker with
    | none =>
      simp only [fold_dependences] at h
      cases hv : visit child st with
      | error e => rw [hv] at h; simp at h
      | ok s =>
        rw [hv] at h
        exact ih s st' h (hvisit child st s hv hP)
    | some m =>
      simp only [fold_dependences] at h
      cases he : evaluate_marker ev m st with
      | error e => rw [he] at h; simp at h
      | ok bs =>
        obtain ⟨b, s1⟩ := bs
        rw [he] at h
        have hs1 : P s1.resolved := by
          rw [evaluate_marker_resolved ev m st b s1 he]
          exact hP
        cases b with
        | false => exact ih s1 st' h hs1
        | true =>
          simp only at h
          cases hv : visit child s1 with
          | error e => rw [hv] at h; simp at h
          | ok s2 =>
            rw [hv] at h
            exact ih s2 st' h (hvisit child s1 s2 hv hs1)

theorem collect_required_inv (g : Dependencies) (ev : MarkerEval)
    (P : List (String × PythonPackage) → Prop)
    (hinsert : ∀ (s : List (String × PythonPackage)) (key : String)
        (p : PythonPackage), P s → s.any (fun q => q.1 == key) = false →
        P (s ++ [(key, p)])) :
    ∀ (fuel : Nat) (key : String) (st st' : SyncState),
    collect_required g ev fuel key st = .ok st' →
    P st.resolved → P st'.resolved := by
  intro fuel
  induction fuel with
  | zero => intro key st st' h; simp [collect_required] at h
  | succ fuel ih =>
    intro key st st' h hP
    unfold collect_required at h
    split at h
    · simp only [Except.ok.injEq] at h
      rw [← h]
      exact hP
    · rename_i node hnode
      split at h
      · simp only [Except.ok.injEq] at h
        rw [← h]
        exact hP
      · rename_i hguard
        have hguard' : st.resolved.any (fun p => p.1 == node.key) = false :=
          Bool.not_eq_true _ ▸ eq_false_of_ne_true hguard
        split at h
        · rename_i python hpython
          exact fold_dependences_inv ev (collect_required g ev fuel) P
            (fun k s s' hv hPs => ih k s s' hv hPs)
            node.dependencies _ st' h
            (hinsert st.resolved node.key python hP hguard')
        · exact fold_dependences_inv ev (collect_required g ev fuel) P
            (fun k s s' hv hPs => ih k s s' hv hPs)
            node.dependencies st st' h hP

theorem process_extras_inv (g : Dependencies) (ev : MarkerEval) (fuel : Nat)
    (P : List (String × PythonPackage) → Prop)
    (hinsert : ∀ (s : List (String × PythonPackage)) (key : String)
        (p : PythonPackage), P s → s.any (fun q => q.1 == key) = false →
        P (s ++ [(key, p)])) :
    ∀ (extras : List String) (st st' : SyncState),
    process_extras g ev fuel extras st = .ok st' →
    P st.resolved → P st'.resolved := by
  intro extras
  induction extras with
  | nil =>
    intro st st' h hP
    simp only [process_extras, Except.ok.injEq] at h
    rw [← h]
    exact hP
  | cons x rest ih =>
    intro st st' h hP
    simp only [process_extras] at h
    split at h
    · split at h
      · simp at h
      · rename_i s1 hs1
        exact ih s1 st' h
          (collect_required_inv g ev P hinsert fuel _ st s1 hs1 hP)
    · simp at h

theorem nodup_insert_fresh (s : List (String × PythonPackage))
    (key : String) (p : PythonPackage)
    (hP : (s.map Prod.fst).Nodup)
    (hfresh : s.any (fun q => q.1 == key) = false) :
    ((s ++ [(key, p)]).map Prod.fst).Nodup := by
  rw [List.map_append]
  have hnot : key ∉ s.map Prod.fst := by
    intro hmem
    obtain ⟨q, hq, hq2⟩ := List.mem_map.mp hmem
    have := List.any_eq_false.mp hfresh q hq
    simp [hq2] at this
  refine List.nodup_append.mpr ⟨hP, List.nodup_singleton key, ?_⟩
  intro a ha hak
  have hak' : a = key := by simpa using hak
  exact hnot (hak' ▸ ha)

/-- C2: one shared resolved set is threaded across the whole traversal:
the keys of the resolved set a successful `required_packages` run
produces are pairwise distinct, hence a package reachable from several
parent edges or roots yields exactly one installation entry; and
whatever an earlier root resolved persists (as a prefix) through the
processing of all later roots. -/
theorem resolved_set_dedup :
    (∀ (g : Dependencies) (ev : MarkerEval) (fuel : Nat) (dflt : Bool)
       (extras : List String) (st : SyncState),
       required_packages g ev fuel dflt extras = .ok st →
       (st.resolved.map Prod.fst).Nodup
       ∧ ∀ (run : Installer) (tmp : TempNamer) (envRoot : String),
           (((install_into run tmp envRoot st.resolved).2.map
               Invocation.key).Nodup))
    ∧ (∀ (g : Dependencies) (ev : MarkerEval) (fuel : Nat)
         (extras : List String) (st1 st : SyncState),
       process_extras g ev fuel extras st1 = .ok st →
       st1.resolved <+: st.resolved) := by
  constructor
  · intro g ev fuel dflt extras st h
    have hnodup : (st.resolved.map Prod.fst).Nodup := by
      unfold required_packages at h
      split at h
      · simp at h
      · rename_i st1 hst1
        have h1 : (st1.resolved.map Prod.fst).Nodup := by
          split at hst1
          · split at hst1
            · exact collect_required_inv g ev _ nodup_insert_fresh
                fuel "" ⟨[], []⟩ st1 hst1 (by simp)
            · simp at hst1
          · simp only [Except.ok.injEq] at hst1
            rw [← hst1]
            simp
        exact process_extras_inv g ev fuel _ nodup_insert_fresh
          extras st1 st h h1
    refine ⟨hnodup, fun run tmp envRoot => ?_⟩
    rw [(install_into_best_effort run tmp envRoot st.resolved).1]
    exact hnodup
  · intro g ev fuel extras st1 st h
    exact process_extras_inv g ev fuel (fun l => st1.resolved <+: l)
      (fun s key p hp _ => hp.trans (List.prefix_append s [(key, p)]))
      extras st1 st h (List.prefix_refl _)

/-- Witness for `resolved_set_dedup` on the diamond graph, where the
package `c` is reachable from both `a` and `b` yet resolves once. -/
theorem resolved_set_dedup_witness :
    required_packages diamond ev_true 10 true [] = .ok diamond_state
    ∧ (diamond_state.resolved.map Prod.fst).Nodup :=
  ⟨rfl,
   ((resolved_set_dedup.1 diamond ev_true 10 true [] diamond_state rfl).1)⟩

/-- C4 (failing input): on a lock graph containing a cycle of
package-less section nodes -- here the accepted document whose default
section lists itself as a child -- `collect_required` never inserts
the node's key into the resolved set (step 2 only inserts nodes
carrying a package), so the already-resolved check never fires and the
recursion exhausts every bound: the Rust original recurses without
bound on such input.  For every fuel the embedding reports exhaustion,
and so does the whole `required_packages` run. -/
theorem collect_required_cycle_unbounded :
    ∀ (ev : MarkerEval) (fuel : Nat),
      collect_required cyclic_sections ev fuel "" ⟨[], []⟩
        = .error .outOfFuel
      ∧ required_packages cyclic_sections ev fuel true []
        = .error .outOfFuel := by
  intro ev fuel
  induction fuel with
  | zero => exact ⟨rfl, rfl⟩
  | succ fuel ih =>
    have hc : collect_required cyclic_sections ev (fuel + 1) "" ⟨[], []⟩
        = .error .outOfFuel := by
      show (match collect_required cyclic_sections ev fuel "" ⟨[], []⟩ with
            | Except.error e => (Except.error e : Except SyncError SyncState)
            | Except.ok st' =>
              fold_dependences ev
                (collect_required cyclic_sections ev fuel) [] st')
          = Except.error SyncError.outOfFuel
      rw [ih.1]
    refine ⟨hc, ?_⟩
    show (match (match Dependencies.default cyclic_sections with
                 | some _ =>
                   collect_required cyclic_sections ev (fuel + 1) "" ⟨[], []⟩
                 | none => Except.error SyncError.defaultSectionNotFound) with
          | Except.error e => (Except.error e : Except SyncError SyncState)
          | Except.ok st1 =>
            process_extras cyclic_sections ev (fuel + 1) [] st1)
        = Except.error SyncError.outOfFuel
    rw [show Dependencies.default cyclic_sections
          = some ⟨"", none, [("", none)]⟩ from rfl]
    rw [hc]

/- Lemmas for the two-phase graph builder. -/

theorem find_map_isSome {α β : Type} (t : List (α × β)) (p : α × β → Bool) :
    ((t.find? p).map (·.2)).isSome = t.any p := by
  induction t with
  | nil => rfl
  | cons kv rest ih =>
    simp only [List.find?_cons, List.any_cons]
    split
    · rename_i hp
      simp [hp]
    · rename_i hp
      simp [hp, ih]

theorem any_map_fst {α β : Type} (t : List (α × β)) (p : α → Bool) :
    (t.map Prod.fst).any p = t.any (fun kv => p kv.1) := by
  induction t with
  | nil => rfl
  | cons kv rest ih => simp [ih]

theorem lookup_isSome_eq_any (g : Dependencies) (k : String) :
    (g.lookup k).isSome = g.table.any (fun p => p.1 == k) :=
  find_map_isSome g.table (fun p => p.1 == k)

theorem lookup_isSome_of_fst_eq (g g' : Dependencies)
    (h : g'.table.map Prod.fst = g.table.map Prod.fst) (k : String) :
    (g'.lookup k).isSome = (g.lookup k).isSome := by
  rw [lookup_isSome_eq_any, lookup_isSome_eq_any,
      ← any_map_fst g'.table (fun x => x == k),
      ← any_map_fst g.table (fun x => x == k), h]

theorem isSome_false_iff_none {α : Type} (o : Option α) :
    o.isSome = false ↔ o = none := by
  cases o <;> simp

theorem update_map_fst (t : List (String × Dependency)) (a : String)
    (nd : Dependency) :
    (t.map (fun p => if p.1 == a then (p.1, nd) else p)).map Prod.fst
      = t.map Prod.fst := by
  induction t with
  | nil => rfl
  | cons kv rest ih =>
    simp only [List.map_cons, ih]
    split <;> rfl

theorem add_dependence_fst (g g' : Dependencies) (a b : String)
    (m : Option Marker) (h : g.add_dependence a b m = .ok g') :
    g'.table.map Prod.fst = g.table.map Prod.fst := by
  unfold Dependencies.add_dependence at h
  split at h
  · simp at h
  · split at h
    · simp at h
    · simp only [Except.ok.injEq] at h
      rw [← h]
      exact update_map_fst g.table a _

theorem add_dependence_error_spec (g : Dependencies) (a b : String)
    (m : Option Marker) (e : String)
    (h : g.add_dependence a b m = .error e) :
    (e = b ∧ g.lookup b = none) ∨ (e = a ∧ g.lookup a = none) := by
  unfold Dependencies.add_dependence at h
  split at h
  · rename_i hb
    simp only [Except.error.injEq] at h
    exact Or.inl ⟨h.symm, hb⟩
  · split at h
    · rename_i ha
      simp only [Except.error.injEq] at h
      exact Or.inr ⟨h.symm, ha⟩
    · simp at h

theorem add_dependence_ok_lookup (g g' : Dependencies) (a b : String)
    (m : Option Marker) (h : g.add_dependence a b m = .ok g') :
    (g.lookup b).isSome = true := by
  unfold Dependencies.add_dependence at h
  split at h
  · simp at h
  · rename_i hb
    rw [hb]
    rfl

theorem lookup_some_mem (g : Dependencies) (k : String) (node : Dependency)
    (h : g.lookup k = some node) : ∃ kv ∈ g.table, kv.2 = node := by
  unfold Dependencies.lookup at h
  obtain ⟨kv, hfind, hkv⟩ := Option.map_eq_some'.mp h
  exact ⟨kv, List.mem_of_find?_eq_some hfind, hkv⟩

theorem add_dependence_closed (g g' : Dependencies) (a b : String)
    (m : Option Marker) (h : g.add_dependence a b m = .ok g')
    (hc : edge_closed g = true) : edge_closed g' = true := by
  have hfst := add_dependence_fst g g' a b m h
  unfold Dependencies.add_dependence at h
  split at h
  · simp at h
  · rename_i hb
    split at h
    · simp at h
    · rename_i node ha
      simp only [Except.ok.injEq] at h
      simp only [edge_closed, List.all_eq_true] at hc ⊢
      intro kv' hkv'
      rw [← h] at hkv'
      simp only [List.mem_map] at hkv'
      obtain ⟨kv, hkv, hkveq⟩ := hkv'
      intro e he
      by_cases hcase : (kv.1 == a) = true
      · rw [if_pos hcase] at hkveq
        rw [← hkveq] at he
        simp only at he
        rw [List.mem_append] at he
        cases he with
        | inl hold =>
          obtain ⟨kv0, hkv0, hkv0eq⟩ := lookup_some_mem g a node ha
          rw [lookup_isSome_of_fst_eq g g' hfst]
          exact hc kv0 hkv0 e (hkv0eq.symm ▸ hold)
        | inr hnew =>
          simp only [List.mem_singleton] at hnew
          subst hnew
          rw [lookup_isSome_of_fst_eq g g' hfst, hb]
          rfl
      · rw [if_neg hcase] at hkveq
        rw [← hkveq] at he
        rw [lookup_isSome_of_fst_eq g g' hfst]
        exact hc kv hkv e he

theorem link_edges_fst (a : String) :
    ∀ (lnk : List (String × Option Marker)) (g g' : Dependencies),
    link_edges a lnk g = .ok g' →
    g'.table.map Prod.fst = g.table.map Prod.fst := by
  intro lnk
  induction lnk with
  | nil =>
    intro g g' h
    simp only [link_edges, Except.ok.injEq] at h
    rw [← h]
  | cons cm rest ih =>
    intro g g' h
    obtain ⟨c, m⟩ := cm
    simp only [link_edges] at h
    split at h
    · simp at h
    · rename_i g1 hadd
      exact (ih g1 g' h).trans (add_dependence_fst g g1 a c m hadd)

theorem link_edges_closed (a : String) :
    ∀ (lnk : List (String × Option Marker)) (g g' : Dependencies),
    link_edges a lnk g = .ok g' → edge_closed g = true →
    edge_closed g' = true := by
  intro lnk
  induction lnk with
  | nil =>
    intro g g' h hc
    simp only [link_edges, Except.ok.injEq] at h
    rw [← h]
    exact hc
  | cons cm rest ih =>
    intro g g' h hc
    obtain ⟨c, m⟩ := cm
    simp only [link_edges] at h
    split at h
    · simp at h
    · rename_i g1 hadd
      exact ih g1 g' h (add_dependence_closed g g1 a c m hadd hc)

theorem link_edges_ok_children (a : String) :
    ∀ (lnk : List (String × Option Marker)) (g g' : Dependencies),
    link_edges a lnk g = .ok g' →
    ∀ e ∈ lnk, (g.lookup e.1).isSome = true := by
  intro lnk
  induction lnk with
  | nil => intro g g' _ e he; simp at he
  | cons cm rest ih =>
    intro g g' h e he
    obtain ⟨c, m⟩ := cm
    simp only [link_edges] at h
    split at h
    · simp at h
    · rename_i g1 hadd
      rw [List.mem_cons] at he
      cases he with
      | inl hhead =>
        rw [hhead]
        exact add_dependence_ok_lookup g g1 a c m hadd
      | inr htail =>
        rw [← lookup_isSome_of_fst_eq g g1
          (add_dependence_fst g g1 a c m hadd) e.1]
        exact ih g1 g' h e htail

theorem link_edges_error_spec (a : String) :
    ∀ (lnk : List (String × Option Marker)) (g : Dependencies) (e : String),
    link_edges a lnk g = .error e →
    ((∃ cm ∈ lnk, cm.1 = e) ∧ g.lookup e = none)
    ∨ (e = a ∧ g.lookup a = none) := by
  intro lnk
  induction lnk with
  | nil => intro g e h; simp [link_edges] at h
  | cons cm rest ih =>
    intro g e h
    obtain ⟨c, m⟩ := cm
    simp only [link_edges] at h
    split at h
    · rename_i e0 hadd
      simp only [Except.error.injEq] at h
      rw [← h]
      cases add_dependence_error_spec g a c m e0 hadd with
      | inl hl =>
        exact Or.inl ⟨⟨(c, m), List.mem_cons_self _ _, hl.1.symm⟩,
          hl.1 ▸ hl.2⟩
      | inr hr => exact Or.inr hr
    · rename_i g1 hadd
      have hfst := add_dependence_fst g g1 a c m hadd
      have htrans : ∀ k, g1.lookup k = none → g.lookup k = none := by
        intro k hk
        rw [← isSome_false_iff_none, ← lookup_isSome_of_fst_eq g g1 hfst k,
            isSome_false_iff_none]
        exact hk
      cases ih g1 e h with
      | inl hl =>
        obtain ⟨⟨cm0, hmem, heq⟩, hnone⟩ := hl
        exact Or.inl ⟨⟨cm0, List.mem_cons_of_mem _ hmem, heq⟩, htrans e hnone⟩
      | inr hr => exact Or.inr ⟨hr.1, htrans a hr.2⟩

theorem phase_two_fst :
    ∀ (links : List (String × List (String × Option Marker)))
      (deps g' : Dependencies),
    phase_two links deps = .ok g' →
    g'.table.map Prod.fst = deps.table.map Prod.fst := by
  intro links
  induction links with
  | nil =>
    intro deps g' h
    simp only [phase_two, Except.ok.injEq] at h
    rw [← h]
  | cons klnk rest ih =>
    intro deps g' h
    obtain ⟨k, lnk⟩ := klnk
    simp only [phase_two] at h
    split at h
    · simp at h
    · rename_i g1 hlink
      exact (ih g1 g' h).trans (link_edges_fst k lnk deps g1 hlink)

theorem phase_two_closed :
    ∀ (links : List (String × List (String × Option Marker)))
      (deps g' : Dependencies),
    phase_two links deps = .ok g' → edge_closed deps = true →
    edge_closed g' = true := by
  intro links
  induction links with
  | nil =>
    intro deps g' h hc
    simp only [phase_two, Except.ok.injEq] at h
    rw [← h]
    exact hc
  | cons klnk rest ih =>
    intro deps g' h hc
    obtain ⟨k, lnk⟩ := klnk
    simp only [phase_two] at h
    split at h
    · simp at h
    · rename_i g1 hlink
      exact ih g1 g' h (link_edges_closed k lnk deps g1 hlink hc)

theorem phase_two_ok_children :
    ∀ (links : List (String × List (String × Option Marker)))
      (deps g' : Dependencies),
    phase_two links deps = .ok g' →
    ∀ klnk ∈ links, ∀ e ∈ klnk.2, (deps.lookup e.1).isSome = true := by
  intro links
  induction links with
  | nil => intro deps g' _ klnk hmem; simp at hmem
  | cons hd rest ih =>
    intro deps g' h klnk hmem e he
    obtain ⟨k, lnk⟩ := hd
    simp only [phase_two] at h
    split at h
    · simp at h
    · rename_i g1 hlink
      rw [List.mem_cons] at hmem
      cases hmem with
      | inl hhead =>
        rw [hhead] at he
        exact link_edges_ok_children k lnk deps g1 hlink e he
      | inr htail =>
        rw [← lookup_isSome_of_fst_eq deps g1
          (link_edges_fst k lnk deps g1 hlink) e.1]
        exact ih g1 g' h klnk htail e he

theorem phase_two_error_spec :
    ∀ (links : List (String × List (String × Option Marker)))
      (deps : Dependencies) (e : String),
    phase_two links deps = .error e →
    ((∃ klnk ∈ links, ∃ cm ∈ klnk.2, cm.1 = e) ∧ deps.lookup e = none)
    ∨ ((∃ klnk ∈ links, klnk.1 = e) ∧ deps.lookup e = none) := by
  intro links
  induction links with
  | nil => intro deps e h; simp [phase_two] at h
  | cons hd rest ih =>
    intro deps e h
    obtain ⟨k, lnk⟩ := hd
    simp only [phase_two] at h
    split at h
    · rename_i e0 hlink
      simp only [Except.error.injEq] at h
      rw [← h]
      cases link_edges_error_spec k lnk deps e0 hlink with
      | inl hl =>
        obtain ⟨⟨cm0, hcmem, hceq⟩, hnone⟩ := hl
        exact Or.inl ⟨⟨(k, lnk), List.mem_cons_self _ _, cm0, hcmem, hceq⟩,
          hnone⟩
      | inr hr =>
        exact Or.inr ⟨⟨(k, lnk), List.mem_cons_self _ _, hr.1.symm⟩,
          hr.1 ▸ hr.2⟩
    · rename_i g1 hlink
      have hfst := link_edges_fst k lnk deps g1 hlink
      have htrans : ∀ x, g1.lookup x = none → deps.lookup x = none := by
        intro x hx
        rw [← isSome_false_iff_none,
            ← lookup_isSome_of_fst_eq deps g1 hfst x,
            isSome_false_iff_none]
        exact hx
      cases ih g1 e h with
      | inl hl =>
        obtain ⟨⟨klnk0, hmem, hcm⟩, hnone⟩ := hl
        exact Or.inl ⟨⟨klnk0, List.mem_cons_of_mem _ hmem, hcm⟩,
          htrans e hnone⟩
      | inr hr =>
        obtain ⟨⟨klnk0, hmem, hk0⟩, hnone⟩ := hr
        exact Or.inr ⟨⟨klnk0, List.mem_cons_of_mem _ hmem, hk0⟩,
          htrans e hnone⟩

theorem phase_one_spec (sources : Sources) (hashes : List (String × Hashes)) :
    ∀ (dents : List (String × DependencyEntry)) (deps : Dependencies)
      (links : List (String × List (String × Option Marker))),
    phase_one sources hashes dents = .ok (deps, links) →
    deps.table.map Prod.fst = dents.map Prod.fst
    ∧ (∀ kv ∈ deps.table, kv.2.dependencies = [])
    ∧ links = dents.map (fun kv => (kv.1, kv.2.dependencies)) := by
  intro dents
  induction dents with
  | nil =>
    intro deps links h
    simp only [phase_one, Except.ok.injEq, Prod.mk.injEq] at h
    obtain ⟨h1, h2⟩ := h
    rw [← h1, ← h2]
    exact ⟨rfl, fun kv hkv => by simp at hkv, rfl⟩
  | cons kv rest ih =>
    intro deps links h
    obtain ⟨k, v⟩ := kv
    simp only [phase_one] at h
    split at h
    · simp at h
    · rename_i python hpy
      split at h
      · simp at h
      · rename_i pr deps0 links0 hrest
        simp only [Except.ok.injEq, Prod.mk.injEq] at h
        obtain ⟨h1, h2⟩ := h
        obtain ⟨ih1, ih2, ih3⟩ := ih deps0 links0 hrest
        refine ⟨?_, ?_, ?_⟩
        · rw [← h1]
          simp only [List.map_cons]
          rw [ih1]
        · intro kv2 hkv2
          rw [← h1] at hkv2
          simp only [List.mem_cons] at hkv2
          cases hkv2 with
          | inl hl => rw [hl]
          | inr hr => exact ih2 kv2 hr
        · rw [← h2, ih3]
          simp

theorem edge_closed_of_no_edges (deps : Dependencies)
    (h : ∀ kv ∈ deps.table, kv.2.dependencies = []) :
    edge_closed deps = true := by
  simp only [edge_closed, List.all_eq_true]
  intro kv hkv
  rw [h kv hkv]
  simp

theorem has_key_eq_lookup_isSome (dents : List (String × DependencyEntry))
    (deps : Dependencies)
    (hfst : deps.table.map Prod.fst = dents.map Prod.fst) (c : String) :
    has_key dents c = (deps.lookup c).isSome := by
  rw [lookup_isSome_eq_any, ← any_map_fst deps.table (fun x => x == c), hfst,
      any_map_fst dents (fun x => x == c)]
  rfl

/-- C3: every lock document the parser accepts has a fully linked
graph (each edge's target key resolves in the node table); and when
phase 1 succeeds but some dependency body lists a child key with no
node, the parse aborts with an error naming a referenced key that has
no node, and no Lock is returned. -/
theorem parse_lock_edge_integrity :
    (∀ (sources : Sources) (hashes : List (String × Hashes))
       (dents : List (String × DependencyEntry)) (lock : Lock),
       parse_lock sources hashes dents = .ok lock →
       edge_closed lock.dependencies = true)
    ∧ (∀ (sources : Sources) (hashes : List (String × Hashes))
         (dents : List (String × DependencyEntry)) (deps : Dependencies)
         (links : List (String × List (String × Option Marker)))
         (c : String),
       phase_one sources hashes dents = .ok (deps, links) →
       references dents c = true →
       has_key dents c = false →
       ∃ missing, parse_lock sources hashes dents = .error missing
         ∧ references dents missing = true
         ∧ has_key dents missing = false) := by
  constructor
  · intro sources hashes dents lock h
    unfold parse_lock at h
    cases hp1 : phase_one sources hashes dents with
    | error e => rw [hp1] at h; simp at h
    | ok pr =>
      obtain ⟨deps, links⟩ := pr
      rw [hp1] at h
      have h' : (match phase_two links deps with
                 | Except.error e => (Except.error e : Except String Lock)
                 | Except.ok g => Except.ok ⟨sources, g⟩) = Except.ok lock := h
      cases hp2 : phase_two links deps with
      | error e =>
        rw [hp2] at h'
        simp at h'
      | ok g =>
        rw [hp2] at h'
        simp only [Except.ok.injEq] at h'
        rw [← h']
        exact phase_two_closed links deps g hp2
          (edge_closed_of_no_edges deps
            (phase_one_spec sources hashes dents deps links hp1).2.1)
  · intro sources hashes dents deps links c hp1 href hkey
    obtain ⟨hfst, hempty, hlinks⟩ :=
      phase_one_spec sources hashes dents deps links hp1
    rw [references, List.any_eq_true] at href
    obtain ⟨kv0, hkv0, hkv0any⟩ := href
    rw [List.any_eq_true] at hkv0any
    obtain ⟨e0, he0, he0c⟩ := hkv0any
    have he0c' : e0.1 = c := by simpa using he0c
    have hnone : deps.lookup c = none := by
      rw [← isSome_false_iff_none, ← has_key_eq_lookup_isSome dents deps hfst c]
      exact hkey
    cases hp2 : phase_two links deps with
    | ok g =>
      exfalso
      have hmem : (kv0.1, kv0.2.dependencies) ∈ links := by
        rw [hlinks]
        exact List.mem_map_of_mem _ hkv0
      have := phase_two_ok_children links deps g hp2
        (kv0.1, kv0.2.dependencies) hmem e0 he0
      rw [he0c', hnone] at this
      simp at this
    | error e =>
      have hparse : parse_lock sources hashes dents = .error e := by
        unfold parse_lock
        rw [hp1]
        show (match phase_two links deps with
              | Except.error e' => (Except.error e' : Except String Lock)
              | Except.ok g => Except.ok ⟨sources, g⟩) = Except.error e
        rw [hp2]
      refine ⟨e, hparse, ?_, ?_⟩
      · cases phase_two_error_spec links deps e hp2 with
        | inl hl =>
          obtain ⟨⟨klnk, hklnk, cm, hcm, hcme⟩, hnonee⟩ := hl
          rw [hlinks] at hklnk
          obtain ⟨kvd, hkvd, hkvdeq⟩ := List.mem_map.mp hklnk
          rw [references, List.any_eq_true]
          refine ⟨kvd, hkvd, ?_⟩
          rw [List.any_eq_true]
          refine ⟨cm, ?_, by simp [hcme]⟩
          have : klnk.2 = kvd.2.dependencies := by rw [← hkvdeq]
          rw [← this]
          exact hcm
        | inr hr =>
          exfalso
          obtain ⟨⟨klnk, hklnk, hke⟩, hnonee⟩ := hr
          rw [hlinks] at hklnk
          obtain ⟨kvd, hkvd, hkvdeq⟩ := List.mem_map.mp hklnk
          have hkeytrue : has_key dents e = true := by
            rw [has_key, List.any_eq_true]
            refine ⟨kvd, hkvd, ?_⟩
            have : kvd.1 = klnk.1 := by rw [← hkvdeq]
            simp [this, hke]
          rw [has_key_eq_lookup_isSome dents deps hfst e, hnonee] at hkeytrue
          simp at hkeytrue
      · cases phase_two_error_spec links deps e hp2 with
        | inl hl =>
          rw [has_key_eq_lookup_isSome dents deps hfst e, hl.2]
          rfl
        | inr hr =>
          rw [has_key_eq_lookup_isSome dents deps hfst e, hr.2]
          rfl

/-- Witness for `parse_lock_edge_integrity`: the two-node document
parses into a closed graph, and the document whose default section
references the absent key "nope" is rejected with that key. -/
theorem parse_lock_edge_integrity_witness :
    (∃ lock, parse_lock ⟨[]⟩ [] dents_ok = .ok lock
       ∧ edge_closed lock.dependencies = true)
    ∧ ∃ missing, parse_lock ⟨[]⟩ [] dents_dangling = .error missing
       ∧ references dents_dangling missing = true
       ∧ has_key dents_dangling missing = false := by
  constructor
  · refine ⟨⟨⟨[]⟩, ⟨[("", ⟨"", none, [("bar", none)]⟩),
      ("bar", ⟨"bar", some ⟨"bar", .version "1.0", none, none⟩, []⟩)]⟩⟩,
      rfl, ?_⟩
    exact parse_lock_edge_integrity.1 ⟨[]⟩ [] dents_ok _ rfl
  · exact parse_lock_edge_integrity.2 ⟨[]⟩ [] dents_dangling
      ⟨[("", ⟨"", none, []⟩)]⟩ [("", [("nope", none)])] "nope"
      rfl (by decide) (by decide)

end Molt
